import Mathlib

/-!
A shallow embedding of `ffbneat.py`: a NEAT-style genome for feed-forward
boolean networks, with its two structural mutation operators
(`add_connection`, `add_node`), genome construction, and the expression
builder, together with theorems about the invariants they maintain.

Embedding conventions:
* Python floats used for the `layer` coordinate are embedded as `ℚ`.
  This is an exact-arithmetic idealization: rationals never round, while
  the source's IEEE-754 doubles do — `(in_layer + out_layer)/2.0` can round
  onto an endpoint (after 53 nested splices of the edge into an OUTPUT the
  layers reach `1 - 2^-53`, and the next midpoint evaluates to exactly
  `1.0`, the OUTPUT's own layer; `roundGrid` below machine-checks that
  rounding step). Properties that rest on strict layer inequalities
  therefore hold of the idealization but not of every float execution;
  degree and innovation-id properties are insensitive to layer values.
* Randomness (`random.sample`, `random.choice`, `random.shuffle`) is made
  explicit: every operation takes the random draw as a parameter (indices
  into the lists the source samples from, or the shuffle permutation).
  A draw that the real `random` primitives could never produce (an index
  out of range of a nonempty candidate list) is mapped to a distinguished
  `badChoice` result that corresponds to no execution of the program.
* A Python exception escaping an operation (`IndexError` from `choice`/`pop`
  on an empty sequence, a failing `assert`) is an explicit error result that
  carries the state the mutated genome is left in, since the source mutates
  the genome in place before some of its possible failure points.
-/

inductive NodeType where
  | AND
  | OR
  | NAND
  | NOR
  | INPUT
  | OUTPUT
deriving DecidableEq

/-- A vertex of the genome; `ffbneat.py` class `Node` (innovation id,
node type, and the floating-point layer coordinate). `layer` embeds the
source's IEEE-754 double as an exact rational; see the header for where
this idealization diverges from float behavior. -/
structure Node where
  innovation : Nat
  node_type : NodeType
  layer : ℚ
deriving DecidableEq

/-- A directed edge of the genome; `ffbneat.py` class `Connection`
(`input`/`output` are node innovation ids). -/
structure Connection where
  input : Nat
  output : Nat
  innovation : Nat
  enabled : Bool
deriving DecidableEq

/-- The genome; `ffbneat.py` class `Genome` (node list, connection list and
the innovation counter, all mutated in place by the source). -/
structure Genome where
  nodes : List Node
  connections : List Connection
  innovation_counter : Nat
deriving DecidableEq

/-- The INPUT nodes created by `Genome.__init__`: ids `0..ic-1`, layer 0. -/
def inputNodes (ic : Nat) : List Node :=
  (List.range ic).map (fun i => { innovation := i, node_type := NodeType.INPUT, layer := 0 })

/-- The OUTPUT nodes created by `Genome.__init__`: ids `ic..ic+oc-1`, layer 1. -/
def outputNodes (ic oc : Nat) : List Node :=
  (List.range oc).map (fun i => { innovation := ic + i, node_type := NodeType.OUTPUT, layer := 1 })

/-- The `while True: from_node = inputs.pop(); to_node = outputs.pop(); append`
loop of `Genome.__init__`, applied to the already-reversed shuffled lists
(Python `pop()` takes from the end): pairs nodes up while both lists are
nonempty, giving each connection the next innovation id. -/
def matchConns (counter : Nat) : List Node → List Node → List Connection
  | a :: as, b :: bs =>
    { input := a.innovation, output := b.innovation, innovation := counter, enabled := true }
      :: matchConns (counter + 1) as bs
  | _, _ => []

/-- A shuffle is any function that permutes its argument
(`random.shuffle` rearranges a list in place). -/
def IsShuffle (f : List Node → List Node) : Prop := ∀ l, List.Perm (f l) l

/-- `Genome.__init__(input_count, output_count)`. Counts are Python ints;
`range` over a negative int is empty, which `Int.toNat` reproduces. The two
shuffles are explicit parameters. No validation is performed by the source. -/
def Genome.init (input_count output_count : Int) (shin shout : List Node → List Node) : Genome :=
  let ic := input_count.toNat
  let oc := output_count.toNat
  let nodes := inputNodes ic ++ outputNodes ic oc
  let inputs := shin (nodes.filter (fun n => n.node_type == NodeType.INPUT))
  let outputs := shout (nodes.filter (fun n => n.node_type == NodeType.OUTPUT))
  let conns := matchConns (ic + oc) inputs.reverse outputs.reverse
  { nodes := nodes
    connections := conns
    innovation_counter := ic + oc + conns.length }

/-- The candidate endpoints of `add_connection`: every node whose type is not
OUTPUT (source line: `valid_nodes = list(filter(lambda node: node.get_type()
is not NodeType.OUTPUT, self.nodes))`). -/
def Genome.validNodes (g : Genome) : List Node :=
  g.nodes.filter (fun n => !(n.node_type == NodeType.OUTPUT))

/-- The duplicate check and append at the end of `add_connection`'s loop body:
if any existing connection (enabled or not) has the same `(input, output)`
pair the draw is rejected, otherwise the new connection is appended and the
innovation counter incremented. -/
def checkAndAdd (g : Genome) (nc : Connection) : Option Genome :=
  if g.connections.any (fun c => c.input == nc.input && c.output == nc.output) then none
  else some { g with connections := g.connections ++ [nc],
                     innovation_counter := g.innovation_counter + 1 }

/-- One iteration of `add_connection`'s rejection-sampling loop, with the
`random.sample(valid_nodes, 2)` draw given as two distinct indices `i j` into
`valid_nodes`. `none` means the draw was rejected (equal layers or duplicate)
and the genome is unchanged; the source then redraws. -/
def Genome.addConnection (g : Genome) (i j : Nat) : Option Genome :=
  if i = j then none
  else
    match g.validNodes[i]?, g.validNodes[j]? with
    | some na, some nb =>
      if nb.layer < na.layer then
        checkAndAdd g
          { input := nb.innovation, output := na.innovation,
            innovation := g.innovation_counter, enabled := true }
      else if na.layer < nb.layer then
        checkAndAdd g
          { input := na.innovation, output := nb.innovation,
            innovation := g.innovation_counter, enabled := true }
      else none
    | _, _ => none

/-- The `random.choice([NodeType.AND, NodeType.OR, NodeType.NAND, NodeType.NOR])`
draw used by `Node.__init__` when no type is passed (the `add_node` case). -/
def gateOf : Fin 4 → NodeType
  | 0 => NodeType.AND
  | 1 => NodeType.OR
  | 2 => NodeType.NAND
  | 3 => NodeType.NOR

/-- Where an `add_node` call raises `IndexError` in the source:
`noEnabled` — `random.choice` on the empty list of enabled connections;
`nodeLookup` — `[n for n in self.nodes if ...][0]` finds no endpoint node;
`noLower` — `random.choice` on the empty list of lower-layer candidates
(the source's `# TODO what if there is no lower node?`). -/
inductive AddNodeErr where
  | noEnabled
  | nodeLookup
  | noLower
deriving DecidableEq

/-- Result of an `add_node` call. An error carries the genome state the
in-place mutations have left behind when the exception is raised (the source
performs no rollback). `badChoice` marks draw parameters the Python `random`
primitives could never return; it corresponds to no execution. -/
inductive AddNodeResult where
  | ok (g : Genome)
  | err (e : AddNodeErr) (g : Genome)
  | badChoice
deriving DecidableEq

/-- `Genome.add_node()`. The random draws are explicit: `p` is the position in
`self.connections` of the enabled connection `random.choice` picked, `gk` the
gate type drawn inside `Node.__init__`, and `li` the index into the list of
lower-layer candidates. Follows the source's order of in-place mutations:
disable the chosen connection, append the new node, append the two splice
connections, then look for a lower-layer third input. The midpoint
`(nin.layer + nout.layer) / 2` is computed exactly in `ℚ`; the source's
binary64 midpoint can instead round onto an endpoint (see the header and
`roundGrid`), which strict-layer results over this definition do not see. -/
def Genome.addNode (g : Genome) (p : Nat) (gk : Fin 4) (li : Nat) : AddNodeResult :=
  if g.connections.all (fun c => !c.enabled) then .err .noEnabled g
  else
    match g.connections[p]? with
    | none => .badChoice
    | some conn =>
      if !conn.enabled then .badChoice
      else
        let g1 : Genome :=
          { g with connections := g.connections.set p { conn with enabled := false } }
        match g1.nodes.find? (fun n => n.innovation == conn.input),
              g1.nodes.find? (fun n => n.innovation == conn.output) with
        | some nin, some nout =>
          let new_layer : ℚ := (nin.layer + nout.layer) / 2
          let new_node : Node :=
            { innovation := g1.innovation_counter, node_type := gateOf gk, layer := new_layer }
          let g2 : Genome :=
            { g1 with nodes := g1.nodes ++ [new_node],
                      innovation_counter := g1.innovation_counter + 1 }
          let cA : Connection :=
            { input := conn.input, output := new_node.innovation,
              innovation := g2.innovation_counter, enabled := true }
          let g3 : Genome :=
            { g2 with connections := g2.connections ++ [cA],
                      innovation_counter := g2.innovation_counter + 1 }
          let cB : Connection :=
            { input := new_node.innovation, output := conn.output,
              innovation := g3.innovation_counter, enabled := true }
          let g4 : Genome :=
            { g3 with connections := g3.connections ++ [cB],
                      innovation_counter := g3.innovation_counter + 1 }
          let cands := g4.nodes.filter
            (fun n => decide (n.layer < new_layer) && n.innovation != conn.input)
          match cands[li]? with
          | none => if cands.isEmpty then .err .noLower g4 else .badChoice
          | some lower_node =>
            let cC : Connection :=
              { input := lower_node.innovation, output := new_node.innovation,
                innovation := g4.innovation_counter, enabled := true }
            .ok { g4 with connections := g4.connections ++ [cC],
                          innovation_counter := g4.innovation_counter + 1 }
        | _, _ => .err .nodeLookup g1

/-- Number of enabled connections into node id `i` (the filter used by both
`build_expression`'s OUTPUT case and `get_input_nodes`). -/
def enabledInDegree (g : Genome) (i : Nat) : Nat :=
  (g.connections.filter (fun c => c.output == i && c.enabled)).length

/-- Number of connections (enabled or not) out of node id `i`. -/
def outDegreeAll (g : Genome) (i : Nat) : Nat :=
  (g.connections.filter (fun c => c.input == i)).length

/-- All innovation ids present in the genome, nodes first then connections. -/
def allIds (g : Genome) : List Nat :=
  g.nodes.map (fun n => n.innovation) ++ g.connections.map (fun c => c.innovation)

/-- Layer of the node with innovation id `i`, looked up the way the source
does (`[n for n in self.nodes if n.innovation == i][0].layer`): first match. -/
def layerAt (g : Genome) (i : Nat) : ℚ :=
  ((g.nodes.find? (fun n => n.innovation == i)).map (fun n => n.layer)).getD 0

/-- A path through enabled connections from node id `a` to node id `b`. -/
inductive EPath (g : Genome) : Nat → Nat → Prop
  | single (c : Connection) : c ∈ g.connections → c.enabled = true → EPath g c.input c.output
  | cons (c : Connection) (b : Nat) : c ∈ g.connections → c.enabled = true →
      EPath g c.output b → EPath g c.input b

/-- One observable transition of a genome: a successful `add_connection`
iteration, a successful `add_node`, or an `add_node` that raises, leaving the
state the in-place mutations produced. (A rejected `add_connection` draw
leaves the genome unchanged, so it needs no transition.) -/
inductive Step (g : Genome) : Genome → Prop
  | conn (i j : Nat) (g' : Genome) : g.addConnection i j = some g' → Step g g'
  | nodeOk (p : Nat) (gk : Fin 4) (li : Nat) (g' : Genome) :
      g.addNode p gk li = .ok g' → Step g g'
  | nodeErr (p : Nat) (gk : Fin 4) (li : Nat) (e : AddNodeErr) (g' : Genome) :
      g.addNode p gk li = .err e g' → Step g g'

def ReachableFrom : Genome → Genome → Prop := Relation.ReflTransGen Step

/-- A genome as constructed by `Genome.__init__`, for any counts and shuffles. -/
def Initial (g : Genome) : Prop :=
  ∃ ic oc shin shout, IsShuffle shin ∧ IsShuffle shout ∧ g = Genome.init ic oc shin shout

/-- A genome state observable at any time: after construction and after any
sequence of `add_connection` / `add_node` calls, including calls that raised. -/
def Reachable (g : Genome) : Prop :=
  ∃ g0, Initial g0 ∧ ReachableFrom g0 g

/-- Constructed with `output_count.toNat ≤ input_count.toNat`, so the random
maximal matching of `__init__` covers every OUTPUT node. -/
def InitialBalanced (g : Genome) : Prop :=
  ∃ ic oc : Int, ∃ shin shout, oc.toNat ≤ ic.toNat ∧ IsShuffle shin ∧ IsShuffle shout ∧
    g = Genome.init ic oc shin shout

def ReachableBalanced (g : Genome) : Prop :=
  ∃ g0, InitialBalanced g0 ∧ ReachableFrom g0 g

/-- Failure modes of the expression builder:
`assertFailed` — a Python `assert` in `build_expression`/`get_input_nodes`
raised `AssertionError` (OUTPUT without exactly one enabled incoming
connection, or a gate with fewer than two);
`indexErr` — `[...][0]` on an empty filter result raised `IndexError`;
`malformedGenome` — the typed error the spec's Expression Builder contract
returns instead; the source never produces it;
`fuelOut` — recursion fuel of the embedding exhausted (no source analogue;
reachable genomes are acyclic, so enough fuel always exists). -/
inductive BuildErr where
  | assertFailed
  | indexErr
  | malformedGenome
  | fuelOut
deriving DecidableEq

/-- Runs `f` over the list, propagating the leftmost error, as the list
comprehension `[build_expression(genome, n) for n in ...]` does. -/
def exceptMap {α : Type} (f : Node → Except BuildErr α) : List Node → Except BuildErr (List α)
  | [] => .ok []
  | n :: rest =>
    match f n, exceptMap f rest with
    | .ok s, .ok ss => .ok (s :: ss)
    | .error e, _ => .error e
    | _, .error e => .error e

/-- `get_input_nodes(genome, node)`: the enabled connections into `node`
(asserting there are at least two) and then the nodes whose ids occur among
their sources, in `genome.nodes` order. -/
def get_input_nodes (g : Genome) (node : Node) : Except BuildErr (List Node) :=
  let nodes_out := g.connections.filter (fun c => c.output == node.innovation && c.enabled)
  if nodes_out.length < 2 then .error .assertFailed
  else
    let node_ids := nodes_out.map (fun c => c.input)
    .ok (g.nodes.filter (fun n => node_ids.contains n.innovation))

/-- The join separator each gate type uses in `build_expression`. The AND
separator in the source is `" AND  "`, with two spaces after `AND`. -/
def sepFor : NodeType → String
  | NodeType.AND => " AND  "
  | NodeType.OR => " OR "
  | NodeType.NAND => " NAND "
  | NodeType.NOR => " NOR "
  | _ => ""

/-- `build_expression(genome, node)`: the string the source builds, with an
explicit recursion fuel (the source recurses directly; on the acyclic genomes
it is run on, any fuel larger than the recursion depth gives its value). -/
def build_expression (g : Genome) : Nat → Node → Except BuildErr String
  | 0, _ => .error .fuelOut
  | fuel + 1, node =>
    match node.node_type with
    | NodeType.INPUT => .ok ("in_" ++ toString node.innovation)
    | NodeType.OUTPUT =>
      match g.connections.filter (fun c => c.output == node.innovation && c.enabled) with
      | [c] =>
        match g.nodes.filter (fun n => n.innovation == c.input) with
        | [] => .error .indexErr
        | n :: _ =>
          match build_expression g fuel n with
          | .ok s => .ok ("out_" ++ toString node.innovation ++ " = " ++ s)
          | .error e => .error e
      | _ => .error .assertFailed
    | t =>
      match get_input_nodes g node with
      | .error e => .error e
      | .ok ins =>
        match exceptMap (fun n => build_expression g fuel n) ins with
        | .ok subs => .ok ("(" ++ String.intercalate (sepFor t) subs ++ ")")
        | .error e => .error e

/-- Modelled from the spec: the gate operator of the spec's `Gate` expression
constructor (§4.5); the four boolean operators a gate node can carry. -/
inductive GateOp where
  | AND
  | OR
  | NAND
  | NOR
deriving DecidableEq

/-- Modelled from the spec: the `Expression` tagged tree of §4.5
(`Input(id)`, `Gate(op, children)`, `NamedOutput(id, inner)`). The source's
`build_expression` renders this tree directly to a string; the evaluator
contract of §4.6 consumes the tree, and the source leaves that evaluator as
an unimplemented stub. -/
inductive Expression where
  | Input (id : Nat)
  | Gate (op : GateOp) (children : List Expression)
  | NamedOutput (id : Nat) (inner : Expression)

/-- The gate operator of a gate node type, `none` on INPUT/OUTPUT. -/
def gateOpOf : NodeType → Option GateOp
  | NodeType.AND => some GateOp.AND
  | NodeType.OR => some GateOp.OR
  | NodeType.NAND => some GateOp.NAND
  | NodeType.NOR => some GateOp.NOR
  | _ => none

mutual
/-- Modelled from the spec: `evaluate(expression, input_assignment)` (§4.6),
which exists in the source only as a stub; structural recursion mirroring the
operator semantics of §4.5: AND = conjunction of all children, OR =
disjunction, NAND/NOR their negations, N-ary by folding. -/
def evalExpr (asg : Nat → Bool) : Expression → Bool
  | .Input i => asg i
  | .NamedOutput _ e => evalExpr asg e
  | .Gate .AND cs => evalConj asg cs
  | .Gate .OR cs => evalDisj asg cs
  | .Gate .NAND cs => !(evalConj asg cs)
  | .Gate .NOR cs => !(evalDisj asg cs)

/-- Modelled from the spec: the conjunction fold of §4.5's AND semantics. -/
def evalConj (asg : Nat → Bool) : List Expression → Bool
  | [] => true
  | e :: rest => evalExpr asg e && evalConj asg rest

/-- Modelled from the spec: the disjunction fold of §4.5's OR semantics. -/
def evalDisj (asg : Nat → Bool) : List Expression → Bool
  | [] => false
  | e :: rest => evalExpr asg e || evalDisj asg rest
end

/-- Modelled from the spec: `build_expression` as §4.5 describes it, returning
the `Expression` tagged tree rather than the string the source builds, with
the `MalformedGenome` typed error of §7 at the arity checks. The traversal
(which connections and nodes are collected, and in which order) mirrors the
source. -/
def build_expression_tree (g : Genome) : Nat → Node → Except BuildErr Expression
  | 0, _ => .error .fuelOut
  | fuel + 1, node =>
    match node.node_type with
    | NodeType.INPUT => .ok (.Input node.innovation)
    | NodeType.OUTPUT =>
      match g.connections.filter (fun c => c.output == node.innovation && c.enabled) with
      | [c] =>
        match g.nodes.filter (fun n => n.innovation == c.input) with
        | [] => .error .malformedGenome
        | n :: _ =>
          (build_expression_tree g fuel n).map (fun e => .NamedOutput node.innovation e)
      | _ => .error .malformedGenome
    | t =>
      match gateOpOf t with
      | none => .error .malformedGenome
      | some op =>
        let nodes_out := g.connections.filter (fun c => c.output == node.innovation && c.enabled)
        if nodes_out.length < 2 then .error .malformedGenome
        else
          let node_ids := nodes_out.map (fun c => c.input)
          let ins := g.nodes.filter (fun n => node_ids.contains n.innovation)
          match exceptMap (fun n => build_expression_tree g fuel n) ins with
          | .ok children => .ok (.Gate op children)
          | .error e => .error e

/-- The genome of claim C10: INPUT nodes 0 and 1 wired into one AND gate,
which feeds the single OUTPUT node 2. -/
def andGenome : Genome :=
  { nodes := [⟨0, NodeType.INPUT, 0⟩, ⟨1, NodeType.INPUT, 0⟩,
              ⟨2, NodeType.OUTPUT, 1⟩, ⟨3, NodeType.AND, 1/2⟩],
    connections := [⟨0, 3, 4, true⟩, ⟨1, 3, 5, true⟩, ⟨3, 2, 6, true⟩],
    innovation_counter := 7 }

/-- The OUTPUT node of `andGenome`. -/
def andGenomeOut : Node := ⟨2, NodeType.OUTPUT, 1⟩

/-- The genome `Genome(3, 1)` produces with identity shuffles followed by one
successful `add_node` (splicing the single initial connection `2 → 3` with an
AND gate, third input from node 0). -/
def spliceG31 : Genome :=
  { nodes := [⟨0, NodeType.INPUT, 0⟩, ⟨1, NodeType.INPUT, 0⟩, ⟨2, NodeType.INPUT, 0⟩,
              ⟨3, NodeType.OUTPUT, 1⟩, ⟨5, NodeType.AND, 1/2⟩],
    connections := [⟨2, 3, 4, false⟩, ⟨2, 5, 6, true⟩, ⟨5, 3, 7, true⟩, ⟨0, 5, 8, true⟩],
    innovation_counter := 9 }

/-- `spliceG31` after the successful `add_connection` draw `(i, j) = (1, 3)`
(endpoints node 1 at layer 0 and node 5 at layer 1/2). -/
def spliceG31' : Genome :=
  { spliceG31 with
      connections := spliceG31.connections ++ [⟨1, 5, 9, true⟩],
      innovation_counter := 10 }

/-- The genome `Genome(2, 1)` produces with identity shuffles followed by two
successful `add_node` calls: the second splice disables connection `1 → 4`,
so the genome holds a disabled connection `(1, 4)` and no enabled one. -/
def spliceTwice21 : Genome :=
  { nodes := [⟨0, NodeType.INPUT, 0⟩, ⟨1, NodeType.INPUT, 0⟩, ⟨2, NodeType.OUTPUT, 1⟩,
              ⟨4, NodeType.AND, 1/2⟩, ⟨8, NodeType.AND, 1/4⟩],
    connections := [⟨1, 2, 3, false⟩, ⟨1, 4, 5, false⟩, ⟨4, 2, 6, true⟩, ⟨0, 4, 7, true⟩,
                    ⟨1, 8, 9, true⟩, ⟨8, 4, 10, true⟩, ⟨0, 8, 11, true⟩],
    innovation_counter := 12 }

/-- The genome `Genome(2, 1)` produces with identity shuffles followed by one
successful `add_node` call (the intermediate state towards `spliceTwice21`). -/
def splice21 : Genome :=
  { nodes := [⟨0, NodeType.INPUT, 0⟩, ⟨1, NodeType.INPUT, 0⟩, ⟨2, NodeType.OUTPUT, 1⟩,
              ⟨4, NodeType.AND, 1/2⟩],
    connections := [⟨1, 2, 3, false⟩, ⟨1, 4, 5, true⟩, ⟨4, 2, 6, true⟩, ⟨0, 4, 7, true⟩],
    innovation_counter := 8 }

/-- `Genome(2, 1)` with identity shuffles: two INPUTs, one OUTPUT, one
connection `1 → 2`. -/
def g21 : Genome :=
  ⟨[⟨0, NodeType.INPUT, 0⟩, ⟨1, NodeType.INPUT, 0⟩, ⟨2, NodeType.OUTPUT, 1⟩],
   [⟨1, 2, 3, true⟩], 4⟩

/-- `Genome(1, 1)` with identity shuffles: one INPUT, one OUTPUT, one
connection `0 → 1`. -/
def g11 : Genome :=
  ⟨[⟨0, NodeType.INPUT, 0⟩, ⟨1, NodeType.OUTPUT, 1⟩], [⟨0, 1, 2, true⟩], 3⟩

/-- `Genome(3, 1)` with identity shuffles: three INPUTs, one OUTPUT, one
connection `2 → 3` (the matching pops from the end of the input list). -/
def g31 : Genome :=
  ⟨[⟨0, NodeType.INPUT, 0⟩, ⟨1, NodeType.INPUT, 0⟩, ⟨2, NodeType.INPUT, 0⟩,
    ⟨3, NodeType.OUTPUT, 1⟩], [⟨2, 3, 4, true⟩], 5⟩

/-- The structural invariant every reachable genome maintains:
all innovation ids together are exactly `0..counter-1` (hence pairwise
distinct and bounded), INPUT nodes sit at layer 0, OUTPUT nodes at layer 1,
all layers lie in `[0, 1]`, every connection's endpoints resolve to nodes
whose layers strictly increase along the edge, and no connection leaves an
OUTPUT node. -/
structure GInv (g : Genome) : Prop where
  idsPerm : List.Perm (allIds g) (List.range g.innovation_counter)
  inLayer : ∀ n ∈ g.nodes, n.node_type = NodeType.INPUT → n.layer = 0
  outLayer : ∀ n ∈ g.nodes, n.node_type = NodeType.OUTPUT → n.layer = 1
  layerBound : ∀ n ∈ g.nodes, 0 ≤ n.layer ∧ n.layer ≤ 1
  ff : ∀ c ∈ g.connections, ∃ a, a ∈ g.nodes ∧ ∃ b, b ∈ g.nodes ∧
        a.innovation = c.input ∧ b.innovation = c.output ∧ a.layer < b.layer
  noOutSource : ∀ c ∈ g.connections, ∀ n ∈ g.nodes, n.innovation = c.input →
        n.node_type ≠ NodeType.OUTPUT

/-- Every OUTPUT node has exactly one enabled incoming connection. -/
def InDegOne (g : Genome) : Prop :=
  ∀ n ∈ g.nodes, n.node_type = NodeType.OUTPUT → enabledInDegree g n.innovation = 1

/-- Rounding to the nearest multiple of `ulp`, ties to even. This models the
IEEE-754 rounding the source's float addition `in_layer + out_layer`
performs wherever the representable doubles surrounding the exact sum are
the multiples of `ulp` (for a sum in `(2 - 2^-52, 2]` the representable
doubles are the multiples of `2^-52`: the ulp of the binade `[1, 2)`,
which `2.0` itself also is). The subsequent `/2.0` of the source is exact
on these values. -/
def roundGrid (ulp q : ℚ) : ℚ :=
  let n : ℤ := ⌊q / ulp⌋
  let r : ℚ := q / ulp - n
  if r < 1/2 then n * ulp
  else if 1/2 < r then (n + 1) * ulp
  else if n % 2 = 0 then n * ulp
  else (n + 1) * ulp

theorem isShuffle_id : IsShuffle id := fun l => List.Perm.refl l

theorem init_1_1 : Genome.init 1 1 id id = g11 := by decide

theorem init_3_1 : Genome.init 3 1 id id = g31 := by decide

theorem init_2_1 : Genome.init 2 1 id id = g21 := by decide

theorem splice21_addNode : g21.addNode 0 0 0 = .ok splice21 := by
  norm_num [Genome.addNode, g21, gateOf, splice21]

theorem spliceTwice21_addNode : splice21.addNode 1 0 0 = .ok spliceTwice21 := by
  norm_num [Genome.addNode, splice21, gateOf, spliceTwice21]

theorem reachable_spliceTwice21 : Reachable spliceTwice21 :=
  ⟨Genome.init 2 1 id id, ⟨2, 1, id, id, isShuffle_id, isShuffle_id, rfl⟩,
    Relation.ReflTransGen.tail
      (Relation.ReflTransGen.single (Step.nodeOk 0 0 0 splice21 (init_2_1 ▸ splice21_addNode)))
      (Step.nodeOk 1 0 0 spliceTwice21 spliceTwice21_addNode)⟩

/-- Characterization of a successful `add_connection` iteration: there are two
candidate (non-OUTPUT) nodes in strictly increasing layer order, no existing
connection (enabled or disabled) already has their id pair, and the result is
the genome with the new enabled connection appended and the counter bumped. -/
theorem addConnection_some_spec {g : Genome} {i j : Nat} {g' : Genome}
    (h : g.addConnection i j = some g') :
    ∃ na nb, na ∈ g.validNodes ∧ nb ∈ g.validNodes ∧ na.layer < nb.layer ∧
      (∀ c ∈ g.connections, ¬(c.input = na.innovation ∧ c.output = nb.innovation)) ∧
      g' = { g with
               connections := g.connections ++
                 [{ input := na.innovation, output := nb.innovation,
                    innovation := g.innovation_counter, enabled := true }],
               innovation_counter := g.innovation_counter + 1 } := by
  unfold Genome.addConnection at h
  split at h
  · exact absurd h (by simp)
  split at h
  · rename_i na nb hvi hvj
    have hna : na ∈ g.validNodes := List.getElem?_mem hvi
    have hnb : nb ∈ g.validNodes := List.getElem?_mem hvj
    split at h
    · rename_i hlt
      unfold checkAndAdd at h
      split at h
      · exact absurd h (by simp)
      rename_i hany
      refine ⟨nb, na, hnb, hna, hlt, ?_, (Option.some.inj h).symm⟩
      rw [Bool.not_eq_true, List.any_eq_false] at hany
      intro c hc hdup
      have hcc := hany c hc
      simp only [Bool.and_eq_true, beq_iff_eq, not_and] at hcc
      exact hcc hdup.1 hdup.2
    split at h
    · rename_i hlt
      unfold checkAndAdd at h
      split at h
      · exact absurd h (by simp)
      rename_i hany
      refine ⟨na, nb, hna, hnb, hlt, ?_, (Option.some.inj h).symm⟩
      rw [Bool.not_eq_true, List.any_eq_false] at hany
      intro c hc hdup
      have hcc := hany c hc
      simp only [Bool.and_eq_true, beq_iff_eq, not_and] at hcc
      exact hcc hdup.1 hdup.2
    · exact absurd h (by simp)
  · exact absurd h (by simp)

/-- The claim C2 failing input: `Genome(1, 1)` followed by `add_node`. The
call raises (`noLower` models the `IndexError` from `random.choice` on the
empty lower-node candidate list) and leaves a partially mutated genome: the
old connection is disabled and a node and two connections were appended, not
rolled back to the prior state shown in the second conjunct. -/
theorem c2_add_node_not_atomic :
    (Genome.init 1 1 id id).addNode 0 0 0 =
      .err .noLower
        { nodes := [⟨0, NodeType.INPUT, 0⟩, ⟨1, NodeType.OUTPUT, 1⟩, ⟨3, NodeType.AND, 1/2⟩],
          connections := [⟨0, 1, 2, false⟩, ⟨0, 3, 4, true⟩, ⟨3, 1, 5, true⟩],
          innovation_counter := 6 } ∧
    Genome.init 1 1 id id =
      { nodes := [⟨0, NodeType.INPUT, 0⟩, ⟨1, NodeType.OUTPUT, 1⟩],
        connections := [⟨0, 1, 2, true⟩],
        innovation_counter := 3 } := by
  constructor
  · rw [init_1_1]
    norm_num [Genome.addNode, g11, gateOf]
  · decide

/-- The claim C4 failing inputs. `Genome(1, 0).add_node()` hits `random.choice`
on an empty enabled-connection list and `Genome(1, 1).add_node()` hits
`random.choice` on an empty lower-node candidate list; both raise an untyped
`IndexError` (embedded as `AddNodeErr.noEnabled` / `AddNodeErr.noLower`), not
typed `NoEnabledConnection` / `NoLowerLayerNode` errors, and the second leaves
the genome partially mutated. -/
theorem c4_add_node_raises_index_error :
    (Genome.init 1 0 id id).addNode 0 0 0 = .err .noEnabled (Genome.init 1 0 id id) ∧
    (Genome.init 1 1 id id).addNode 0 1 0 =
      .err .noLower
        { nodes := [⟨0, NodeType.INPUT, 0⟩, ⟨1, NodeType.OUTPUT, 1⟩, ⟨3, NodeType.OR, 1/2⟩],
          connections := [⟨0, 1, 2, false⟩, ⟨0, 3, 4, true⟩, ⟨3, 1, 5, true⟩],
          innovation_counter := 6 } := by
  constructor
  · decide
  · rw [init_1_1]
    norm_num [Genome.addNode, g11, gateOf]

/-- Claim C9 is false on the code: construction with a negative count does not
fail; `range` over a negative int is empty, so `Genome(-1, 1)` silently builds
a genome with no INPUT nodes, and `Genome(1, -1)` one with no OUTPUT nodes. -/
theorem c9_counterexample :
    Genome.init (-1) 1 id id =
      { nodes := [⟨0, NodeType.OUTPUT, 1⟩], connections := [], innovation_counter := 1 } ∧
    Genome.init 1 (-1) id id =
      { nodes := [⟨0, NodeType.INPUT, 0⟩], connections := [], innovation_counter := 1 } := by
  decide

/-- Amended claim C9: construction never validates its counts; a negative
count simply behaves as zero. -/
theorem c9_negative_count_behaves_as_zero (ic oc : Int) (shin shout : List Node → List Node) :
    (ic ≤ 0 → Genome.init ic oc shin shout = Genome.init 0 oc shin shout) ∧
    (oc ≤ 0 → Genome.init ic oc shin shout = Genome.init ic 0 shin shout) := by
  constructor <;> intro h <;> simp [Genome.init, Int.toNat_of_nonpos h]

/-- Witness for C9's amended claim at the concrete input `Genome(-1, 1)`. -/
theorem c9_negative_count_behaves_as_zero_witness :
    Genome.init (-1) 1 id id = Genome.init 0 1 id id :=
  (c9_negative_count_behaves_as_zero (-1) 1 id id).1 (by decide)

/-- Claim C3 is false as stated for arbitrary counts: `Genome(0, 1)` leaves
its OUTPUT node with enabled in-degree 0 (the matching is empty), not 1. -/
theorem c3_counterexample :
    (⟨0, NodeType.OUTPUT, 1⟩ : Node) ∈ (Genome.init 0 1 id id).nodes ∧
    enabledInDegree (Genome.init 0 1 id id) 0 = 0 := by
  decide

/-- Claim C10's string is off by one space: the source joins AND children with
the separator `" AND  "` (two spaces), so the built expression is
`out_2 = (in_0 AND  in_1)`, not `out_2 = (in_0 AND in_1)`. -/
theorem c10_counterexample :
    build_expression andGenome 10 andGenomeOut ≠ .ok "out_2 = (in_0 AND in_1)" := by
  intro h
  have h2 : (Except.ok "out_2 = (in_0 AND  in_1)" : Except BuildErr String) =
      .ok "out_2 = (in_0 AND in_1)" := h
  exact absurd (Except.ok.inj h2) (by decide)

/-- Amended claim C10: on the one-AND-gate genome, `build_expression` yields
`out_2 = (in_0 AND  in_1)` (the source's AND separator carries two spaces),
the corresponding expression tree is `NamedOutput 2 (Gate AND [in_0, in_1])`,
and evaluating it under `{in_0 ↦ true, in_1 ↦ false}` yields `false`. -/
theorem c10_and_scenario :
    build_expression andGenome 10 andGenomeOut = .ok "out_2 = (in_0 AND  in_1)" ∧
    build_expression_tree andGenome 10 andGenomeOut =
      .ok (.NamedOutput 2 (.Gate .AND [.Input 0, .Input 1])) ∧
    evalExpr (fun i => i == 0) (.NamedOutput 2 (.Gate .AND [.Input 0, .Input 1])) = false :=
  ⟨rfl, rfl, rfl⟩

/-- Amended claim C7: when `build_expression` meets an OUTPUT node whose
enabled in-degree is not 1, or a gate node whose enabled in-degree is below 2,
it fails through the source's `assert` (an untyped `AssertionError`), not by
returning a typed `MalformedGenome` error. -/
theorem c7_assert_on_malformed :
    (∀ (g : Genome) (node : Node) (fuel : Nat), node.node_type = NodeType.OUTPUT →
        enabledInDegree g node.innovation ≠ 1 →
        build_expression g (fuel + 1) node = .error .assertFailed) ∧
    (∀ (g : Genome) (node : Node) (fuel : Nat), gateOpOf node.node_type ≠ none →
        enabledInDegree g node.innovation < 2 →
        build_expression g (fuel + 1) node = .error .assertFailed) := by
  constructor
  · intro g node fuel hty hdeg
    simp only [build_expression, hty]
    rcases hf : g.connections.filter (fun c => c.output == node.innovation && c.enabled) with
      _ | ⟨c, _ | ⟨c2, rest⟩⟩
    · rw [hf]
    · exfalso
      apply hdeg
      unfold enabledInDegree
      rw [hf]
      rfl
    · rw [hf]
  · intro g node fuel hty hdeg
    have hlen : (g.connections.filter
        (fun c => c.output == node.innovation && c.enabled)).length < 2 := hdeg
    cases hnt : node.node_type <;> rw [hnt] at hty <;>
      simp only [build_expression, hnt, get_input_nodes, hlen, if_pos] <;>
        first
          | rfl
          | exact absurd rfl hty

/-- Claim C7's error is not the typed `MalformedGenome`: on `Genome(0, 1)`,
whose OUTPUT node has zero enabled incoming connections, `build_expression`
fails with the embedded `AssertionError`, not `MalformedGenome`. -/
theorem c7_counterexample :
    build_expression (Genome.init 0 1 id id) 10 ⟨0, NodeType.OUTPUT, 1⟩ =
      .error .assertFailed ∧
    build_expression (Genome.init 0 1 id id) 10 ⟨0, NodeType.OUTPUT, 1⟩ ≠
      .error .malformedGenome := by
  refine ⟨rfl, fun h => ?_⟩
  have h2 : (Except.error BuildErr.assertFailed : Except BuildErr String) =
      .error .malformedGenome := h
  exact absurd (Except.error.inj h2) (by decide)

/-- Witness for C7's amended claim: `Genome(0, 1)`'s OUTPUT node has enabled
in-degree 0, and `build_expression` fails through the assert. -/
theorem c7_assert_on_malformed_witness :
    build_expression (Genome.init 0 1 id id) (9 + 1) ⟨0, NodeType.OUTPUT, 1⟩ =
      .error .assertFailed :=
  c7_assert_on_malformed.1 (Genome.init 0 1 id id) ⟨0, NodeType.OUTPUT, 1⟩ 9 rfl (by decide)

theorem spliceG31_addNode : g31.addNode 0 0 0 = .ok spliceG31 := by
  norm_num [Genome.addNode, g31, gateOf, spliceG31]

theorem spliceG31_addConnection : spliceG31.addConnection 1 3 = some spliceG31' := by
  simp +decide only [Genome.addConnection, Genome.validNodes, checkAndAdd, spliceG31,
    spliceG31', List.filter_cons, List.filter_nil]
  norm_num

/-- Amended claim C6: `add_connection`'s duplicate check scans every existing
connection, disabled ones included, so a successful call never appends a
connection whose `(from, to)` pair matches any connection already present. -/
theorem c6_duplicate_check_includes_disabled {g : Genome} {i j : Nat} {g' : Genome}
    (h : g.addConnection i j = some g') :
    ∀ cNew, g'.connections.getLast? = some cNew →
      ∀ c ∈ g.connections, ¬(c.input = cNew.input ∧ c.output = cNew.output) := by
  obtain ⟨na, nb, _, _, _, hnodup, hg'⟩ := addConnection_some_spec h
  subst hg'
  intro cNew hlast c hc
  simp only [List.getLast?_concat] at hlast
  cases Option.some.inj hlast
  exact fun hdup => hnodup c hc hdup

/-- Witness for C6's amended claim at the successful draw `(1, 3)` on
`spliceG31`: the appended connection `(1, 5)` duplicates no existing pair,
here checked against the disabled connection `(2, 3)`. -/
theorem c6_duplicate_check_includes_disabled_witness :
    ¬((⟨2, 3, 4, false⟩ : Connection).input = (⟨1, 5, 9, true⟩ : Connection).input ∧
      (⟨2, 3, 4, false⟩ : Connection).output = (⟨1, 5, 9, true⟩ : Connection).output) :=
  c6_duplicate_check_includes_disabled spliceG31_addConnection
    ⟨1, 5, 9, true⟩ (by decide) ⟨2, 3, 4, false⟩ (by decide)

/-- Claim C6 is false on the code: `spliceTwice21` (reachable as
`Genome(2, 1)` followed by two `add_node` splices) holds a disabled connection
`(1, 4)` and no enabled one, yet no `add_connection` draw can ever recreate
the pair `(1, 4)` — the duplicate check also rejects pairs matching disabled
connections. -/
theorem c6_counterexample :
    Reachable spliceTwice21 ∧
    ((⟨1, 4, 5, false⟩ : Connection) ∈ spliceTwice21.connections) ∧
    (∀ c ∈ spliceTwice21.connections, c.input = 1 → c.output = 4 → c.enabled = false) ∧
    ¬ ∃ i j g' cNew, spliceTwice21.addConnection i j = some g' ∧
        g'.connections.getLast? = some cNew ∧ cNew.input = 1 ∧ cNew.output = 4 := by
  refine ⟨reachable_spliceTwice21, by decide, by decide, ?_⟩
  rintro ⟨i, j, g', cNew, hadd, hlast, hin, hout⟩
  obtain ⟨na, nb, _, _, _, hnodup, hg'⟩ := addConnection_some_spec hadd
  subst hg'
  simp only [List.getLast?_concat] at hlast
  cases Option.some.inj hlast
  exact hnodup ⟨1, 4, 5, false⟩ (by decide) ⟨hin.symm ▸ rfl, hout.symm ▸ rfl⟩

theorem find?_innov {l : List Node} (hnd : (l.map (fun n => n.innovation)).Nodup)
    {a : Node} (ha : a ∈ l) {i : Nat} (hi : a.innovation = i) :
    l.find? (fun n => n.innovation == i) = some a := by
  induction l with
  | nil => exact absurd ha (List.not_mem_nil a)
  | cons x xs ih =>
    rcases List.mem_cons.mp ha with rfl | hmem
    · rw [List.find?_cons_of_pos _ (by simp [hi])]
    · rw [List.map_cons, List.nodup_cons] at hnd
      have hx : x.innovation ≠ i := by
        intro hxi
        apply hnd.1
        rw [hxi, ← hi]
        exact List.mem_map_of_mem (fun n => n.innovation) hmem
      rw [List.find?_cons_of_neg _ (by simp [hx])]
      exact ih hnd.2 hmem

theorem countP_set {l : List Connection} {p : Nat} {a : Connection} (hl : l[p]? = some a)
    (b : Connection) (f : Connection → Bool) :
    (l.set p b).countP f + (if f a then 1 else 0) =
      l.countP f + (if f b then 1 else 0) := by
  induction l generalizing p with
  | nil => simp at hl
  | cons x xs ih =>
    cases p with
    | zero =>
      simp only [List.getElem?_cons_zero] at hl
      obtain rfl := Option.some.inj hl
      simp only [List.set_cons_zero, List.countP_cons]
      omega
    | succ q =>
      simp only [List.getElem?_cons_succ] at hl
      simp only [List.set_cons_succ, List.countP_cons]
      have := ih hl
      omega

theorem map_set_innov {l : List Connection} {p : Nat} {a : Connection} (hl : l[p]? = some a)
    (b : Connection) (hab : b.innovation = a.innovation) :
    (l.set p b).map (fun c => c.innovation) = l.map (fun c => c.innovation) := by
  induction l generalizing p with
  | nil => simp at hl
  | cons x xs ih =>
    cases p with
    | zero =>
      simp only [List.getElem?_cons_zero] at hl
      obtain rfl := Option.some.inj hl
      simp [hab]
    | succ q =>
      simp only [List.getElem?_cons_succ] at hl
      simp [ih hl]

theorem matchConns_innovs (counter : Nat) (as bs : List Node) :
    (matchConns counter as bs).map (fun c => c.innovation) =
      List.range' counter (matchConns counter as bs).length := by
  induction as generalizing counter bs with
  | nil => cases bs <;> simp [matchConns]
  | cons a as ih =>
    cases bs with
    | nil => simp [matchConns]
    | cons b bs => simp [matchConns, ih, List.range'_succ]

theorem matchConns_mem {counter : Nat} {as bs : List Node} {c : Connection}
    (hc : c ∈ matchConns counter as bs) :
    (∃ a ∈ as, c.input = a.innovation) ∧ (∃ b ∈ bs, c.output = b.innovation) ∧
      c.enabled = true := by
  induction as generalizing counter bs with
  | nil => cases bs <;> simp [matchConns] at hc
  | cons a as ih =>
    cases bs with
    | nil => simp [matchConns] at hc
    | cons b bs =>
      rcases List.mem_cons.mp hc with rfl | hmem
      · exact ⟨⟨a, List.mem_cons_self a as, rfl⟩, ⟨b, List.mem_cons_self b bs, rfl⟩, rfl⟩
      · obtain ⟨⟨a', ha', h1⟩, ⟨b', hb', h2⟩, h3⟩ := ih hmem
        exact ⟨⟨a', List.mem_cons_of_mem a ha', h1⟩, ⟨b', List.mem_cons_of_mem b hb', h2⟩, h3⟩

theorem matchConns_outputs_of_le {counter : Nat} {as bs : List Node}
    (h : bs.length ≤ as.length) :
    (matchConns counter as bs).map (fun c => c.output) = bs.map (fun n => n.innovation) := by
  induction bs generalizing counter as with
  | nil => cases as <;> simp [matchConns]
  | cons b bs ih =>
    cases as with
    | nil => simp at h
    | cons a as =>
      simp only [List.length_cons, Nat.add_le_add_iff_right] at h
      simp [matchConns, ih h]

theorem inputNodes_innovs (ic : Nat) :
    (inputNodes ic).map (fun n => n.innovation) = List.range ic := by
  simp only [inputNodes, List.map_map]
  exact List.map_id _

theorem outputNodes_innovs (ic oc : Nat) :
    (outputNodes ic oc).map (fun n => n.innovation) = (List.range oc).map (ic + ·) := by
  simp [outputNodes, List.map_map]

theorem mem_inputNodes {ic : Nat} {n : Node} (h : n ∈ inputNodes ic) :
    n.node_type = NodeType.INPUT ∧ n.layer = 0 ∧ n.innovation < ic := by
  simp only [inputNodes, List.mem_map, List.mem_range] at h
  obtain ⟨i, hi, rfl⟩ := h
  exact ⟨rfl, rfl, hi⟩

theorem mem_outputNodes {ic oc : Nat} {n : Node} (h : n ∈ outputNodes ic oc) :
    n.node_type = NodeType.OUTPUT ∧ n.layer = 1 ∧ ic ≤ n.innovation ∧
      n.innovation < ic + oc := by
  simp only [outputNodes, List.mem_map, List.mem_range] at h
  obtain ⟨i, hi, rfl⟩ := h
  exact ⟨rfl, rfl, Nat.le_add_right ic i, Nat.add_lt_add_left hi ic⟩

theorem init_filter_inputs (ic oc : Nat) :
    (inputNodes ic ++ outputNodes ic oc).filter (fun n => n.node_type == NodeType.INPUT) =
      inputNodes ic := by
  rw [List.filter_append]
  have h1 : (inputNodes ic).filter (fun n => n.node_type == NodeType.INPUT) = inputNodes ic :=
    List.filter_eq_self.mpr (fun n hn => by simp [(mem_inputNodes hn).1])
  have h2 : (outputNodes ic oc).filter (fun n => n.node_type == NodeType.INPUT) = [] :=
    List.filter_eq_nil_iff.mpr (fun n hn => by simp [(mem_outputNodes hn).1])
  rw [h1, h2, List.append_nil]

theorem init_filter_outputs (ic oc : Nat) :
    (inputNodes ic ++ outputNodes ic oc).filter (fun n => n.node_type == NodeType.OUTPUT) =
      outputNodes ic oc := by
  rw [List.filter_append]
  have h1 : (inputNodes ic).filter (fun n => n.node_type == NodeType.OUTPUT) = [] :=
    List.filter_eq_nil_iff.mpr (fun n hn => by simp [(mem_inputNodes hn).1])
  have h2 : (outputNodes ic oc).filter (fun n => n.node_type == NodeType.OUTPUT) =
      outputNodes ic oc :=
    List.filter_eq_self.mpr (fun n hn => by simp [(mem_outputNodes hn).1])
  rw [h1, h2, List.nil_append]

theorem inv_init_core (icn ocn : Nat) (ins outs : List Node)
    (hins : List.Perm ins (inputNodes icn)) (houts : List.Perm outs (outputNodes icn ocn)) :
    GInv { nodes := inputNodes icn ++ outputNodes icn ocn,
           connections := matchConns (icn + ocn) ins.reverse outs.reverse,
           innovation_counter :=
             icn + ocn + (matchConns (icn + ocn) ins.reverse outs.reverse).length } := by
  have memIn : ∀ a ∈ ins.reverse, a ∈ inputNodes icn := fun a ha =>
    hins.mem_iff.mp (List.mem_reverse.mp ha)
  have memOut : ∀ b ∈ outs.reverse, b ∈ outputNodes icn ocn := fun b hb =>
    houts.mem_iff.mp (List.mem_reverse.mp hb)
  have memNode : ∀ n : Node, n ∈ inputNodes icn ++ outputNodes icn ocn →
      n ∈ inputNodes icn ∨ n ∈ outputNodes icn ocn := fun n hn => List.mem_append.mp hn
  refine ⟨?_, ?_, ?_, ?_, ?_, ?_⟩
  · unfold allIds
    simp only [List.map_append, inputNodes_innovs, outputNodes_innovs, matchConns_innovs]
    rw [← List.range_add]
    have heq : List.range (icn + ocn) ++
        List.range' (icn + ocn) (matchConns (icn + ocn) ins.reverse outs.reverse).length =
        List.range (icn + ocn + (matchConns (icn + ocn) ins.reverse outs.reverse).length) := by
      rw [List.range_eq_range' (icn + ocn),
          List.range_eq_range' (icn + ocn + (matchConns (icn + ocn) ins.reverse outs.reverse).length)]
      have happ := List.range'_append 0 (icn + ocn)
        (matchConns (icn + ocn) ins.reverse outs.reverse).length 1
      simp only [Nat.one_mul, Nat.zero_add] at happ
      rw [happ, Nat.add_comm (matchConns (icn + ocn) ins.reverse outs.reverse).length (icn + ocn)]
    rw [heq]
  · intro n hn hty
    rcases memNode n hn with h | h
    · exact (mem_inputNodes h).2.1
    · exact absurd hty (by simp [(mem_outputNodes h).1])
  · intro n hn hty
    rcases memNode n hn with h | h
    · exact absurd hty (by simp [(mem_inputNodes h).1])
    · exact (mem_outputNodes h).2.1
  · intro n hn
    rcases memNode n hn with h | h
    · rw [(mem_inputNodes h).2.1]
      norm_num
    · rw [(mem_outputNodes h).2.1]
      norm_num
  · intro c hc
    obtain ⟨⟨a, ha, hia⟩, ⟨b, hb, hob⟩, _⟩ := matchConns_mem hc
    have ha' := memIn a ha
    have hb' := memOut b hb
    refine ⟨a, List.mem_append_left _ ha', b, List.mem_append_right _ hb',
      hia.symm, hob.symm, ?_⟩
    rw [(mem_inputNodes ha').2.1, (mem_outputNodes hb').2.1]
    norm_num
  · intro c hc n hn hni
    obtain ⟨⟨a, ha, hia⟩, _, _⟩ := matchConns_mem hc
    have ha' := memIn a ha
    rcases memNode n hn with h | h
    · simp [(mem_inputNodes h).1]
    · exfalso
      have h1 : n.innovation < icn := by
        rw [hni, hia]
        exact (mem_inputNodes ha').2.2
      have h2 : icn ≤ n.innovation := (mem_outputNodes h).2.2.1
      omega

theorem inv_init (ic oc : Int) {shin shout : List Node → List Node}
    (hin : IsShuffle shin) (hout : IsShuffle shout) :
    GInv (Genome.init ic oc shin shout) := by
  have h : Genome.init ic oc shin shout =
      { nodes := inputNodes ic.toNat ++ outputNodes ic.toNat oc.toNat,
        connections := matchConns (ic.toNat + oc.toNat)
          (shin (inputNodes ic.toNat)).reverse
          (shout (outputNodes ic.toNat oc.toNat)).reverse,
        innovation_counter := ic.toNat + oc.toNat + (matchConns (ic.toNat + oc.toNat)
          (shin (inputNodes ic.toNat)).reverse
          (shout (outputNodes ic.toNat oc.toNat)).reverse).length } := by
    simp only [Genome.init]
    rw [init_filter_inputs, init_filter_outputs]
  rw [h]
  exact inv_init_core _ _ _ _ (hin _) (hout _)

theorem GInv.idsNodup {g : Genome} (h : GInv g) : (allIds g).Nodup :=
  h.idsPerm.symm.nodup (List.nodup_range _)

theorem GInv.nodesNodup {g : Genome} (h : GInv g) :
    (g.nodes.map (fun n => n.innovation)).Nodup :=
  List.Nodup.of_append_left h.idsNodup

theorem GInv.nodeIdLt {g : Genome} (h : GInv g) {n : Node} (hn : n ∈ g.nodes) :
    n.innovation < g.innovation_counter := by
  have hm : n.innovation ∈ allIds g :=
    List.mem_append_left _ (List.mem_map_of_mem _ hn)
  exact List.mem_range.mp (h.idsPerm.mem_iff.mp hm)

theorem GInv.connIdLt {g : Genome} (h : GInv g) {c : Connection} (hc : c ∈ g.connections) :
    c.innovation < g.innovation_counter := by
  have hm : c.innovation ∈ allIds g :=
    List.mem_append_right _ (List.mem_map_of_mem _ hc)
  exact List.mem_range.mp (h.idsPerm.mem_iff.mp hm)

theorem GInv.nodeUnique {g : Genome} (h : GInv g) {a b : Node} (ha : a ∈ g.nodes)
    (hb : b ∈ g.nodes) (hab : a.innovation = b.innovation) : a = b :=
  List.inj_on_of_nodup_map h.nodesNodup ha hb hab

theorem mem_validNodes {g : Genome} {n : Node} (h : n ∈ g.validNodes) :
    n ∈ g.nodes ∧ n.node_type ≠ NodeType.OUTPUT := by
  have := List.mem_filter.mp h
  refine ⟨this.1, ?_⟩
  simpa using this.2

theorem inv_addConnection {g : Genome} {i j : Nat} {g' : Genome} (hg : GInv g)
    (h : g.addConnection i j = some g') : GInv g' := by
  obtain ⟨na, nb, hna, hnb, hlt, hnodup, rfl⟩ := addConnection_some_spec h
  obtain ⟨hnaM, hnaT⟩ := mem_validNodes hna
  obtain ⟨hnbM, hnbT⟩ := mem_validNodes hnb
  refine ⟨?_, hg.inLayer, hg.outLayer, hg.layerBound, ?_, ?_⟩
  · unfold allIds
    simp only [List.map_append, List.map_cons, List.map_nil]
    rw [← List.append_assoc, List.range_succ]
    exact hg.idsPerm.append_right _
  · intro c hc
    rcases List.mem_append.mp hc with hc | hc
    · exact hg.ff c hc
    · rw [List.mem_singleton] at hc
      subst hc
      exact ⟨na, hnaM, nb, hnbM, rfl, rfl, hlt⟩
  · intro c hc n hn hni
    rcases List.mem_append.mp hc with hc | hc
    · exact hg.noOutSource c hc n hn hni
    · rw [List.mem_singleton] at hc
      subst hc
      have : n = na := hg.nodeUnique hn hnaM hni
      rw [this]
      exact hnaT

theorem addNode_noEnabled_spec {g : Genome} {p : Nat} {gk : Fin 4} {li : Nat} {g' : Genome}
    (h : g.addNode p gk li = .err .noEnabled g') :
    g' = g ∧ ∀ c ∈ g.connections, c.enabled = false := by
  simp only [Genome.addNode] at h
  split at h
  · rename_i hall
    refine ⟨(AddNodeResult.err.inj h).2.symm, ?_⟩
    intro c hc
    have := List.all_eq_true.mp hall c hc
    simpa using this
  split at h
  · exact absurd h (by simp)
  rename_i conn hp
  split at h
  · exact absurd h (by simp)
  split at h
  · split at h
    · split at h
      · exact absurd h (by simp)
      · exact absurd h (by simp)
    · exact absurd h (by simp)
  · exact absurd h (by simp)

theorem addNode_ok_spec {g : Genome} {p : Nat} {gk : Fin 4} {li : Nat} {g' : Genome}
    (h : g.addNode p gk li = .ok g') :
    ∃ conn nin nout lower,
      g.connections[p]? = some conn ∧ conn.enabled = true ∧
      g.nodes.find? (fun n => n.innovation == conn.input) = some nin ∧
      g.nodes.find? (fun n => n.innovation == conn.output) = some nout ∧
      lower ∈ g.nodes ++ [⟨g.innovation_counter, gateOf gk, (nin.layer + nout.layer) / 2⟩] ∧
      lower.layer < (nin.layer + nout.layer) / 2 ∧
      lower.innovation ≠ conn.input ∧
      g'.nodes = g.nodes ++
        [⟨g.innovation_counter, gateOf gk, (nin.layer + nout.layer) / 2⟩] ∧
      g'.connections = (g.connections.set p { conn with enabled := false }) ++
        [⟨conn.input, g.innovation_counter, g.innovation_counter + 1, true⟩,
         ⟨g.innovation_counter, conn.output, g.innovation_counter + 2, true⟩,
         ⟨lower.innovation, g.innovation_counter, g.innovation_counter + 3, true⟩] ∧
      g'.innovation_counter = g.innovation_counter + 4 := by
  simp only [Genome.addNode] at h
  split at h
  · exact absurd h (by simp)
  split at h
  · exact absurd h (by simp)
  rename_i conn hp
  split at h
  · exact absurd h (by simp)
  rename_i henb
  split at h
  · rename_i nin nout hfin hfout
    split at h
    · split at h
      · exact absurd h (by simp)
      · exact absurd h (by simp)
    · rename_i lower hlower
      have hg' := (AddNodeResult.ok.inj h).symm
      have hlmem := List.getElem?_mem hlower
      have hlf := List.mem_filter.mp hlmem
      have hcond := hlf.2
      simp only [Bool.and_eq_true, decide_eq_true_eq, bne_iff_ne] at hcond
      refine ⟨conn, nin, nout, lower, hp, by simpa using henb, hfin, hfout,
        hlf.1, hcond.1, hcond.2, ?_, ?_, ?_⟩
      · rw [hg']
      · rw [hg']
        simp [List.append_assoc]
      · rw [hg']
  · exact absurd h (by simp)

theorem addNode_noLower_spec {g : Genome} {p : Nat} {gk : Fin 4} {li : Nat} {g' : Genome}
    (h : g.addNode p gk li = .err .noLower g') :
    ∃ conn nin nout,
      g.connections[p]? = some conn ∧ conn.enabled = true ∧
      g.nodes.find? (fun n => n.innovation == conn.input) = some nin ∧
      g.nodes.find? (fun n => n.innovation == conn.output) = some nout ∧
      g'.nodes = g.nodes ++
        [⟨g.innovation_counter, gateOf gk, (nin.layer + nout.layer) / 2⟩] ∧
      g'.connections = (g.connections.set p { conn with enabled := false }) ++
        [⟨conn.input, g.innovation_counter, g.innovation_counter + 1, true⟩,
         ⟨g.innovation_counter, conn.output, g.innovation_counter + 2, true⟩] ∧
      g'.innovation_counter = g.innovation_counter + 3 := by
  simp only [Genome.addNode] at h
  split at h
  · exact absurd h (by simp)
  split at h
  · exact absurd h (by simp)
  rename_i conn hp
  split at h
  · exact absurd h (by simp)
  rename_i henb
  split at h
  · rename_i nin nout hfin hfout
    split at h
    · split at h
      · have hg' := (AddNodeResult.err.inj h).2.symm
        refine ⟨conn, nin, nout, hp, by simpa using henb, hfin, hfout, ?_, ?_, ?_⟩
        · rw [hg']
        · rw [hg']
          simp [List.append_assoc]
        · rw [hg']
      · exact absurd h (by simp)
    · exact absurd h (by simp)
  · exact absurd h (by simp)

theorem addNode_nodeLookup_spec {g : Genome} {p : Nat} {gk : Fin 4} {li : Nat} {g' : Genome}
    (h : g.addNode p gk li = .err .nodeLookup g') :
    ∃ conn, g.connections[p]? = some conn ∧ conn.enabled = true ∧
      (g.nodes.find? (fun n => n.innovation == conn.input) = none ∨
       g.nodes.find? (fun n => n.innovation == conn.output) = none) := by
  simp only [Genome.addNode] at h
  split at h
  · exact absurd h (by simp)
  split at h
  · exact absurd h (by simp)
  rename_i conn hp
  split at h
  · exact absurd h (by simp)
  rename_i henb
  split at h
  · rename_i nin nout hfin hfout
    split at h
    · split at h
      · exact absurd h (by simp)
      · exact absurd h (by simp)
    · exact absurd h (by simp)
  · rename_i hnotboth
    refine ⟨conn, hp, by simpa using henb, ?_⟩
    rcases hfi : Genome.nodes g |>.find? (fun n => n.innovation == conn.input) with _ | nin
    · exact Or.inl hfi
    rcases hfo : Genome.nodes g |>.find? (fun n => n.innovation == conn.output) with _ | nout
    · exact Or.inr hfo
    · exact (hnotboth nin nout hfi hfo).elim

theorem gateOf_ne (gk : Fin 4) :
    gateOf gk ≠ NodeType.INPUT ∧ gateOf gk ≠ NodeType.OUTPUT := by
  fin_cases gk <;> simp [gateOf]

theorem perm_insert_middle {α : Type} (A B r : List α) (x : α) :
    List.Perm ((A ++ [x]) ++ (B ++ r)) ((A ++ B) ++ (x :: r)) := by
  have h1 : (A ++ [x]) ++ (B ++ r) = A ++ (([x] ++ B) ++ r) := by
    simp [List.append_assoc]
  have h2 : (A ++ B) ++ (x :: r) = A ++ ((B ++ [x]) ++ r) := by
    simp [List.append_assoc]
  rw [h1, h2]
  exact List.Perm.append_left A (List.Perm.append_right r List.perm_append_comm)

theorem range_add_four (c : Nat) :
    List.range (c + 4) = List.range c ++ [c, c + 1, c + 2, c + 3] := by
  rw [List.range_add]
  rfl

theorem range_add_three (c : Nat) :
    List.range (c + 3) = List.range c ++ [c, c + 1, c + 2] := by
  rw [List.range_add]
  rfl

theorem inv_addNode_ok {g : Genome} {p : Nat} {gk : Fin 4} {li : Nat} {g' : Genome}
    (hg : GInv g) (h : g.addNode p gk li = .ok g') : GInv g' := by
  obtain ⟨conn, nin, nout, lower, hp, hce, hfin, hfout, hlmem, hllt, hlne, hN, hC, hK⟩ :=
    addNode_ok_spec h
  have hconnM : conn ∈ g.connections := List.getElem?_mem hp
  have hninM : nin ∈ g.nodes := List.mem_of_find?_eq_some hfin
  have hnoutM : nout ∈ g.nodes := List.mem_of_find?_eq_some hfout
  have hninI : nin.innovation = conn.input := by simpa using List.find?_some hfin
  have hnoutI : nout.innovation = conn.output := by simpa using List.find?_some hfout
  have horder : nin.layer < nout.layer := by
    obtain ⟨a, haM, b, hbM, hai, hbi, hab⟩ := hg.ff conn hconnM
    have ha := hg.nodeUnique haM hninM (hai.trans hninI.symm)
    have hb := hg.nodeUnique hbM hnoutM (hbi.trans hnoutI.symm)
    rw [ha, hb] at hab
    exact hab
  have hbin := hg.layerBound nin hninM
  have hbout := hg.layerBound nout hnoutM
  have hmid1 : nin.layer < (nin.layer + nout.layer) / 2 := by linarith
  have hmid2 : (nin.layer + nout.layer) / 2 < nout.layer := by linarith
  have hmidB : 0 ≤ (nin.layer + nout.layer) / 2 ∧ (nin.layer + nout.layer) / 2 ≤ 1 :=
    ⟨by linarith [hbin.1, hbout.1], by linarith [hbin.2, hbout.2]⟩
  have hgate := gateOf_ne gk
  have hmemN : ∀ n ∈ g'.nodes, n ∈ g.nodes ∨
      n = (⟨g.innovation_counter, gateOf gk, (nin.layer + nout.layer) / 2⟩ : Node) := by
    rw [hN]
    intro n hn
    rcases List.mem_append.mp hn with h1 | h1
    · exact Or.inl h1
    · exact Or.inr (List.mem_singleton.mp h1)
  refine ⟨?_, ?_, ?_, ?_, ?_, ?_⟩
  · unfold allIds
    rw [hN, hC, hK]
    simp only [List.map_append, List.map_cons, List.map_nil]
    rw [map_set_innov hp
      { input := conn.input, output := conn.output, innovation := conn.innovation,
        enabled := false } rfl]
    refine List.Perm.trans (perm_insert_middle _ _ _ _) ?_
    rw [range_add_four]
    exact hg.idsPerm.append_right _
  · intro n hn hty
    rcases hmemN n hn with h1 | h1
    · exact hg.inLayer n h1 hty
    · rw [h1] at hty
      exact absurd hty hgate.1
  · intro n hn hty
    rcases hmemN n hn with h1 | h1
    · exact hg.outLayer n h1 hty
    · rw [h1] at hty
      exact absurd hty hgate.2
  · intro n hn
    rcases hmemN n hn with h1 | h1
    · exact hg.layerBound n h1
    · rw [h1]
      exact hmidB
  · intro c hc
    rw [hC] at hc
    have hmemLeft : ∀ m : Node, m ∈ g.nodes → m ∈ g'.nodes := by
      rw [hN]
      exact fun m hm => List.mem_append_left _ hm
    have hnnM : (⟨g.innovation_counter, gateOf gk, (nin.layer + nout.layer) / 2⟩ : Node) ∈
        g'.nodes := by
      rw [hN]
      exact List.mem_append_right _ (List.mem_singleton.mpr rfl)
    rcases List.mem_append.mp hc with h1 | h1
    · rcases List.mem_or_eq_of_mem_set h1 with h2 | h2
      · obtain ⟨a, haM, b, hbM, hai, hbi, hab⟩ := hg.ff c h2
        exact ⟨a, hmemLeft a haM, b, hmemLeft b hbM, hai, hbi, hab⟩
      · subst h2
        exact ⟨nin, hmemLeft nin hninM, nout, hmemLeft nout hnoutM, hninI, hnoutI, horder⟩
    · simp only [List.mem_cons, List.not_mem_nil, or_false] at h1
      rcases h1 with h1 | h1 | h1 <;> subst h1
      · exact ⟨nin, hmemLeft nin hninM, _, hnnM, hninI, rfl, hmid1⟩
      · exact ⟨_, hnnM, nout, hmemLeft nout hnoutM, rfl, hnoutI, hmid2⟩
      · refine ⟨lower, ?_, _, hnnM, rfl, rfl, hllt⟩
        rw [hN]
        exact hlmem
  · intro c hc n hn hni
    rw [hC] at hc
    have hnM := hmemN n hn
    have hIdCtr : n ∈ g.nodes → n.innovation = g.innovation_counter → False := by
      intro h3 h4
      have := hg.nodeIdLt h3
      rw [h4] at this
      omega
    rcases List.mem_append.mp hc with h1 | h1
    · rcases List.mem_or_eq_of_mem_set h1 with h2 | h2
      · rcases hnM with h3 | h3
        · exact hg.noOutSource c h2 n h3 hni
        · rw [h3]
          exact hgate.2
      · rcases hnM with h3 | h3
        · refine hg.noOutSource conn hconnM n h3 ?_
          rw [hni, h2]
        · rw [h3]
          exact hgate.2
    · simp only [List.mem_cons, List.not_mem_nil, or_false] at h1
      rcases h1 with h1 | h1 | h1 <;> subst h1
      · rcases hnM with h3 | h3
        · exact hg.noOutSource conn hconnM n h3 hni
        · rw [h3]
          exact hgate.2
      · rcases hnM with h3 | h3
        · exact absurd hni (fun h4 => hIdCtr h3 h4)
        · rw [h3]
          exact hgate.2
      · rcases hnM with h3 | h3
        · rcases List.mem_append.mp hlmem with h4 | h4
          · have heq : n = lower := hg.nodeUnique h3 h4 hni
            intro hOut
            have h5 := hg.outLayer n h3 hOut
            rw [heq] at h5
            have h6 : nout.layer ≤ 1 := hbout.2
            linarith
          · rw [List.mem_singleton.mp h4] at hllt hni
            exact absurd hni (fun h4 => hIdCtr h3 h4)
        · rw [h3]
          exact hgate.2

theorem inv_addNode_err {g : Genome} {p : Nat} {gk : Fin 4} {li : Nat} {e : AddNodeErr}
    {g' : Genome} (hg : GInv g) (h : g.addNode p gk li = .err e g') : GInv g' := by
  cases e with
  | noEnabled =>
    obtain ⟨rfl, -⟩ := addNode_noEnabled_spec h
    exact hg
  | nodeLookup =>
    exfalso
    obtain ⟨conn, hp, hce, hbad⟩ := addNode_nodeLookup_spec h
    have hconnM : conn ∈ g.connections := List.getElem?_mem hp
    obtain ⟨a, haM, b, hbM, hai, hbi, hab⟩ := hg.ff conn hconnM
    rcases hbad with hbad | hbad
    · rw [find?_innov hg.nodesNodup haM hai] at hbad
      exact Option.noConfusion hbad
    · rw [find?_innov hg.nodesNodup hbM hbi] at hbad
      exact Option.noConfusion hbad
  | noLower =>
    obtain ⟨conn, nin, nout, hp, hce, hfin, hfout, hN, hC, hK⟩ := addNode_noLower_spec h
    have hconnM : conn ∈ g.connections := List.getElem?_mem hp
    have hninM : nin ∈ g.nodes := List.mem_of_find?_eq_some hfin
    have hnoutM : nout ∈ g.nodes := List.mem_of_find?_eq_some hfout
    have hninI : nin.innovation = conn.input := by simpa using List.find?_some hfin
    have hnoutI : nout.innovation = conn.output := by simpa using List.find?_some hfout
    have horder : nin.layer < nout.layer := by
      obtain ⟨a, haM, b, hbM, hai, hbi, hab⟩ := hg.ff conn hconnM
      have ha := hg.nodeUnique haM hninM (hai.trans hninI.symm)
      have hb := hg.nodeUnique hbM hnoutM (hbi.trans hnoutI.symm)
      rw [ha, hb] at hab
      exact hab
    have hbin := hg.layerBound nin hninM
    have hbout := hg.layerBound nout hnoutM
    have hmid1 : nin.layer < (nin.layer + nout.layer) / 2 := by linarith
    have hmid2 : (nin.layer + nout.layer) / 2 < nout.layer := by linarith
    have hmidB : 0 ≤ (nin.layer + nout.layer) / 2 ∧ (nin.layer + nout.layer) / 2 ≤ 1 :=
      ⟨by linarith [hbin.1, hbout.1], by linarith [hbin.2, hbout.2]⟩
    have hgate := gateOf_ne gk
    have hmemN : ∀ n ∈ g'.nodes, n ∈ g.nodes ∨
        n = (⟨g.innovation_counter, gateOf gk, (nin.layer + nout.layer) / 2⟩ : Node) := by
      rw [hN]
      intro n hn
      rcases List.mem_append.mp hn with h1 | h1
      · exact Or.inl h1
      · exact Or.inr (List.mem_singleton.mp h1)
    refine ⟨?_, ?_, ?_, ?_, ?_, ?_⟩
    · unfold allIds
      rw [hN, hC, hK]
      simp only [List.map_append, List.map_cons, List.map_nil]
      rw [map_set_innov hp
        { input := conn.input, output := conn.output, innovation := conn.innovation,
          enabled := false } rfl]
      refine List.Perm.trans (perm_insert_middle _ _ _ _) ?_
      rw [range_add_three]
      exact hg.idsPerm.append_right _
    · intro n hn hty
      rcases hmemN n hn with h1 | h1
      · exact hg.inLayer n h1 hty
      · rw [h1] at hty
        exact absurd hty hgate.1
    · intro n hn hty
      rcases hmemN n hn with h1 | h1
      · exact hg.outLayer n h1 hty
      · rw [h1] at hty
        exact absurd hty hgate.2
    · intro n hn
      rcases hmemN n hn with h1 | h1
      · exact hg.layerBound n h1
      · rw [h1]
        exact hmidB
    · intro c hc
      rw [hC] at hc
      have hmemLeft : ∀ m : Node, m ∈ g.nodes → m ∈ g'.nodes := by
        rw [hN]
        exact fun m hm => List.mem_append_left _ hm
      have hnnM : (⟨g.innovation_counter, gateOf gk, (nin.layer + nout.layer) / 2⟩ : Node) ∈
          g'.nodes := by
        rw [hN]
        exact List.mem_append_right _ (List.mem_singleton.mpr rfl)
      rcases List.mem_append.mp hc with h1 | h1
      · rcases List.mem_or_eq_of_mem_set h1 with h2 | h2
        · obtain ⟨a, haM, b, hbM, hai, hbi, hab⟩ := hg.ff c h2
          exact ⟨a, hmemLeft a haM, b, hmemLeft b hbM, hai, hbi, hab⟩
        · subst h2
          exact ⟨nin, hmemLeft nin hninM, nout, hmemLeft nout hnoutM, hninI, hnoutI, horder⟩
      · simp only [List.mem_cons, List.not_mem_nil, or_false] at h1
        rcases h1 with h1 | h1 <;> subst h1
        · exact ⟨nin, hmemLeft nin hninM, _, hnnM, hninI, rfl, hmid1⟩
        · exact ⟨_, hnnM, nout, hmemLeft nout hnoutM, rfl, hnoutI, hmid2⟩
    · intro c hc n hn hni
      rw [hC] at hc
      have hnM := hmemN n hn
      have hIdCtr : n ∈ g.nodes → n.innovation = g.innovation_counter → False := by
        intro h3 h4
        have := hg.nodeIdLt h3
        rw [h4] at this
        omega
      rcases List.mem_append.mp hc with h1 | h1
      · rcases List.mem_or_eq_of_mem_set h1 with h2 | h2
        · rcases hnM with h3 | h3
          · exact hg.noOutSource c h2 n h3 hni
          · rw [h3]
            exact hgate.2
        · rcases hnM with h3 | h3
          · refine hg.noOutSource conn hconnM n h3 ?_
            rw [hni, h2]
          · rw [h3]
            exact hgate.2
      · simp only [List.mem_cons, List.not_mem_nil, or_false] at h1
        rcases h1 with h1 | h1 <;> subst h1
        · rcases hnM with h3 | h3
          · exact hg.noOutSource conn hconnM n h3 hni
          · rw [h3]
            exact hgate.2
        · rcases hnM with h3 | h3
          · exact absurd hni (fun h4 => hIdCtr h3 h4)
          · rw [h3]
            exact hgate.2

theorem inv_step {g g' : Genome} (hg : GInv g) (h : Step g g') : GInv g' := by
  cases h with
  | conn i j g' hc => exact inv_addConnection hg hc
  | nodeOk p gk li g' hc => exact inv_addNode_ok hg hc
  | nodeErr p gk li e g' hc => exact inv_addNode_err hg hc

theorem inv_reachableFrom {g g' : Genome} (hg : GInv g) (h : ReachableFrom g g') :
    GInv g' := by
  induction h with
  | refl => exact hg
  | tail _ hstep ih => exact inv_step ih hstep

theorem inv_reachable {g : Genome} (h : Reachable g) : GInv g := by
  obtain ⟨g0, ⟨ic, oc, shin, shout, hin, hout, rfl⟩, hreach⟩ := h
  exact inv_reachableFrom (inv_init ic oc hin hout) hreach

theorem layerAt_lt_of_conn {g : Genome} (hg : GInv g) {c : Connection}
    (hc : c ∈ g.connections) : layerAt g c.input < layerAt g c.output := by
  obtain ⟨a, haM, b, hbM, hai, hbi, hab⟩ := hg.ff c hc
  unfold layerAt
  rw [find?_innov hg.nodesNodup haM hai, find?_innov hg.nodesNodup hbM hbi]
  simpa using hab

theorem epath_layer_lt {g : Genome} (hg : GInv g) {u v : Nat} (h : EPath g u v) :
    layerAt g u < layerAt g v := by
  induction h with
  | single c hc he => exact layerAt_lt_of_conn hg hc
  | cons c b hc he _ ih => exact lt_trans (layerAt_lt_of_conn hg hc) ih

theorem reachable_init (ic oc : Int) : Reachable (Genome.init ic oc id id) :=
  ⟨Genome.init ic oc id id, ⟨ic, oc, id, id, isShuffle_id, isShuffle_id, rfl⟩,
    Relation.ReflTransGen.refl⟩

theorem reachable_spliceG31 : Reachable spliceG31 :=
  ⟨Genome.init 3 1 id id, ⟨3, 1, id, id, isShuffle_id, isShuffle_id, rfl⟩,
    Relation.ReflTransGen.single
      (Step.nodeOk 0 0 0 spliceG31 (init_3_1 ▸ spliceG31_addNode))⟩

/-- The feed-forward invariant of the exact-arithmetic idealization: at every
reachable genome state (after construction and any sequence of mutations,
including raising ones) every connection's endpoints resolve to nodes and
satisfy `layer(from) < layer(to)` strictly, and the enabled-connection
subgraph has no path from any node back to itself. This holds over `ℚ`
layers; it does not transfer to the source's IEEE-754 doubles, whose
midpoint can round onto an endpoint (see `c1_float_midpoint_hits_endpoint`),
so it settles no claim about the float program's strict layer ordering. -/
theorem exact_layers_feed_forward_acyclic {g : Genome} (hg : Reachable g) :
    (∀ c ∈ g.connections,
      (∃ a ∈ g.nodes, a.innovation = c.input) ∧
      (∃ b ∈ g.nodes, b.innovation = c.output) ∧
      (∀ a ∈ g.nodes, ∀ b ∈ g.nodes,
        a.innovation = c.input → b.innovation = c.output → a.layer < b.layer)) ∧
    (∀ v : Nat, ¬ EPath g v v) := by
  have hi := inv_reachable hg
  constructor
  · intro c hc
    obtain ⟨a, haM, b, hbM, hai, hbi, hab⟩ := hi.ff c hc
    refine ⟨⟨a, haM, hai⟩, ⟨b, hbM, hbi⟩, ?_⟩
    intro a' ha' b' hb' hai' hbi'
    rw [hi.nodeUnique ha' haM (hai'.trans hai.symm),
        hi.nodeUnique hb' hbM (hbi'.trans hbi.symm)]
    exact hab
  · intro v hpath
    exact absurd (epath_layer_lt hi hpath) (lt_irrefl _)

/-- Instantiation of the idealized feed-forward invariant at the reachable
genome `spliceG31` (`Genome(3, 1)` followed by one `add_node`). -/
theorem exact_layers_feed_forward_acyclic_witness :
    (∀ c ∈ spliceG31.connections,
      (∃ a ∈ spliceG31.nodes, a.innovation = c.input) ∧
      (∃ b ∈ spliceG31.nodes, b.innovation = c.output) ∧
      (∀ a ∈ spliceG31.nodes, ∀ b ∈ spliceG31.nodes,
        a.innovation = c.input → b.innovation = c.output → a.layer < b.layer)) ∧
    (∀ v : Nat, ¬ EPath spliceG31 v v) :=
  exact_layers_feed_forward_acyclic reachable_spliceG31

/-- Claim C1 fails on the source's float layers: the strict invariant
`layer(from) < layer(to)` is violated by a real execution. Splicing the edge
into an OUTPUT node 53 times in a row leaves that edge with endpoint layers
`1 - 2^-53` and `1` (every intermediate value is an exact double). On the
next `add_node`, the binary64 sum `in_layer + out_layer` has exact value
`2 - 2^-53`, which is not representable; it rounds, ties to even, to exactly
`2`, and the following exact division by two gives `new_layer = 1` — the
OUTPUT's own layer. The splice connection `new_node → OUTPUT` that the call
then appends has `layer(from) = layer(to)`, not a strict increase. The three
conjuncts check: the edge's layers were strictly ordered, the rounded sum is
`2`, and the resulting midpoint equals the OUTPUT layer `1`. -/
theorem c1_float_midpoint_hits_endpoint :
    ((1 : ℚ) - 1/2^53) < 1 ∧
    roundGrid (1/2^52) ((1 - 1/2^53) + 1) = 2 ∧
    roundGrid (1/2^52) ((1 - 1/2^53) + 1) / 2 = 1 := by
  have hq : (((1 : ℚ) - 1/2^53) + 1) / (1/2^52) = 2^53 - 1/2 := by
    norm_num
  have hfl : ⌊((2 : ℚ)^53 - 1/2)⌋ = 2^53 - 1 := by
    rw [Int.floor_eq_iff]
    constructor
    · push_cast
      norm_num
    · push_cast
      norm_num
  have h2 : roundGrid (1/2^52) ((1 - 1/2^53) + 1) = 2 := by
    simp only [roundGrid]
    rw [hq, hfl]
    norm_num
  refine ⟨by norm_num, h2, ?_⟩
  rw [h2]
  norm_num

/-- Claim C8: at every reachable genome state the innovation ids of nodes and
connections together are exactly `0, 1, ..., counter - 1`, each issued once:
they start at 0, increase, are shared between the two id spaces with no
collision, and are never reused, also across failed or aborted mutations. -/
theorem c8_innovation_ids_unique {g : Genome} (hg : Reachable g) :
    List.Perm (allIds g) (List.range g.innovation_counter) ∧ (allIds g).Nodup :=
  have hi := inv_reachable hg
  ⟨hi.idsPerm, hi.idsNodup⟩

/-- Witness for C8 at the reachable genome `spliceG31`. -/
theorem c8_innovation_ids_unique_witness :
    List.Perm (allIds spliceG31) (List.range spliceG31.innovation_counter) ∧
    (allIds spliceG31).Nodup :=
  c8_innovation_ids_unique reachable_spliceG31

theorem addConnection_target_not_output {g : Genome} (hi : GInv g) {i j : Nat} {g' : Genome}
    (h : g.addConnection i j = some g') {cNew : Connection}
    (hlast : g'.connections.getLast? = some cNew) :
    ∀ n ∈ g.nodes, n.innovation = cNew.output → n.node_type ≠ NodeType.OUTPUT := by
  obtain ⟨na, nb, hna, hnb, hlt, hnodup, rfl⟩ := addConnection_some_spec h
  simp only [List.getLast?_concat] at hlast
  cases Option.some.inj hlast
  intro n hn hni
  obtain ⟨hnbM, hnbT⟩ := mem_validNodes hnb
  have heq : n = nb := hi.nodeUnique hn hnbM hni
  rw [heq]
  exact hnbT

/-- Amended claim C5: an OUTPUT node can never be an endpoint of the
connection `add_connection` creates — the source filters OUTPUT nodes out of
the candidate set entirely, so the new connection's `to` node is never of
kind OUTPUT (OUTPUT nodes receive connections only from construction and
`add_node` splices). -/
theorem c5_output_never_connection_target {g : Genome} (hg : Reachable g) {i j : Nat}
    {g' : Genome} (h : g.addConnection i j = some g') :
    ∀ cNew, g'.connections.getLast? = some cNew →
      ∀ n ∈ g.nodes, n.innovation = cNew.output → n.node_type ≠ NodeType.OUTPUT :=
  fun _ hlast => addConnection_target_not_output (inv_reachable hg) h hlast

/-- Claim C5 is false on the code: there is no reachable genome and no draw
for which `add_connection` creates a connection whose `to` node is an OUTPUT
node, because `valid_nodes` excludes OUTPUT nodes from both endpoints. -/
theorem c5_counterexample :
    ¬ ∃ (g : Genome) (i j : Nat) (g' : Genome) (cNew : Connection) (n : Node),
        Reachable g ∧ g.addConnection i j = some g' ∧
        g'.connections.getLast? = some cNew ∧ n ∈ g.nodes ∧
        n.innovation = cNew.output ∧ n.node_type = NodeType.OUTPUT := by
  rintro ⟨g, i, j, g', cNew, n, hg, h, hlast, hn, hni, hout⟩
  exact addConnection_target_not_output (inv_reachable hg) h hlast n hn hni hout

/-- Witness for C5's amended claim at the successful draw `(1, 3)` on the
reachable genome `spliceG31`: the new connection's `to` node (id 5) is the
AND gate, not an OUTPUT. -/
theorem c5_output_never_connection_target_witness :
    (⟨5, NodeType.AND, 1/2⟩ : Node).node_type ≠ NodeType.OUTPUT :=
  c5_output_never_connection_target reachable_spliceG31 spliceG31_addConnection
    ⟨1, 5, 9, true⟩ rfl ⟨5, NodeType.AND, 1/2⟩ (by simp [spliceG31]) rfl

theorem matchConns_count_output {c : Nat} {as bs : List Node} (h : bs.length ≤ as.length)
    (i : Nat) :
    ((matchConns c as bs).filter (fun cn => cn.output == i && cn.enabled)).length =
      (bs.map (fun n => n.innovation)).count i := by
  induction bs generalizing c as with
  | nil => cases as <;> simp [matchConns]
  | cons b bs ih =>
    cases as with
    | nil => simp at h
    | cons a as =>
      simp only [List.length_cons, Nat.add_le_add_iff_right] at h
      by_cases hbi : b.innovation = i
      · simp [matchConns, List.filter_cons, hbi, ih h, List.count_cons]
      · simp [matchConns, List.filter_cons, hbi, ih h, List.count_cons, Ne.symm hbi]

theorem outDeg_zero_of_inv {g : Genome} (hi : GInv g) {n : Node} (hn : n ∈ g.nodes)
    (ht : n.node_type = NodeType.OUTPUT) : outDegreeAll g n.innovation = 0 := by
  unfold outDegreeAll
  rw [List.length_eq_zero, List.filter_eq_nil_iff]
  intro c hc
  simp only [beq_iff_eq]
  intro heq
  exact hi.noOutSource c hc n hn heq.symm ht

theorem indeg_init_core (icn ocn : Nat) (ins outs : List Node)
    (hins : List.Perm ins (inputNodes icn)) (houts : List.Perm outs (outputNodes icn ocn))
    (hbal : ocn ≤ icn) :
    InDegOne { nodes := inputNodes icn ++ outputNodes icn ocn,
               connections := matchConns (icn + ocn) ins.reverse outs.reverse,
               innovation_counter :=
                 icn + ocn + (matchConns (icn + ocn) ins.reverse outs.reverse).length } := by
  intro n hn hty
  have hlin : ins.reverse.length = icn := by
    rw [List.length_reverse, hins.length_eq, inputNodes, List.length_map, List.length_range]
  have hlout : outs.reverse.length = ocn := by
    rw [List.length_reverse, houts.length_eq, outputNodes, List.length_map, List.length_range]
  have hble : outs.reverse.length ≤ ins.reverse.length := by
    rw [hlin, hlout]
    exact hbal
  unfold enabledInDegree
  rw [matchConns_count_output hble]
  have hperm : List.Perm (outs.reverse.map (fun x => x.innovation))
      ((outputNodes icn ocn).map (fun x => x.innovation)) :=
    ((outs.reverse_perm).trans houts).map _
  rw [hperm.count_eq]
  have hnO : n ∈ outputNodes icn ocn := by
    rcases List.mem_append.mp hn with h1 | h1
    · exact absurd hty (by simp [(mem_inputNodes h1).1])
    · exact h1
  have hnd : ((outputNodes icn ocn).map (fun x => x.innovation)).Nodup := by
    rw [outputNodes_innovs]
    exact (List.nodup_range ocn).map (fun a b hab => by omega)
  exact List.count_eq_one_of_mem hnd (List.mem_map_of_mem _ hnO)

theorem indeg_addConnection {g : Genome} {i j : Nat} {g' : Genome} (hi : GInv g)
    (hd : InDegOne g) (h : g.addConnection i j = some g') : InDegOne g' := by
  obtain ⟨na, nb, hna, hnb, hlt, hnodup, rfl⟩ := addConnection_some_spec h
  intro n hn hty
  have hne : (nb.innovation == n.innovation) = false := by
    simp only [beq_eq_false_iff_ne, ne_eq]
    intro he
    obtain ⟨hnbM, hnbT⟩ := mem_validNodes hnb
    exact hnbT (by rw [hi.nodeUnique hnbM hn he]; exact hty)
  have hmain : enabledInDegree g n.innovation = 1 := hd n hn hty
  unfold enabledInDegree at hmain ⊢
  rw [List.filter_append, List.length_append]
  simp only [List.filter_cons, List.filter_nil, hne, Bool.false_and, Bool.cond_false]
  simpa using hmain

theorem indeg_addNode_ok {g : Genome} {p : Nat} {gk : Fin 4} {li : Nat} {g' : Genome}
    (hi : GInv g) (hd : InDegOne g) (h : g.addNode p gk li = .ok g') : InDegOne g' := by
  obtain ⟨conn, nin, nout, lower, hp, hce, hfin, hfout, hlmem, hllt, hlne, hN, hC, hK⟩ :=
    addNode_ok_spec h
  have hgate := gateOf_ne gk
  intro n hn hty
  have hnM : n ∈ g.nodes := by
    rw [hN] at hn
    rcases List.mem_append.mp hn with h1 | h1
    · exact h1
    · rw [List.mem_singleton.mp h1] at hty
      exact absurd hty hgate.2
  have hidlt : n.innovation < g.innovation_counter := hi.nodeIdLt hnM
  have hne1 : (g.innovation_counter == n.innovation) = false := by
    simp only [beq_eq_false_iff_ne, ne_eq]
    omega
  have hcg : g.connections.countP (fun c => c.output == n.innovation && c.enabled) = 1 := by
    rw [List.countP_eq_length_filter]
    exact hd n hnM hty
  have hcount := countP_set hp
    { input := conn.input, output := conn.output, innovation := conn.innovation,
      enabled := false } (fun c => c.output == n.innovation && c.enabled)
  unfold enabledInDegree
  rw [hC, List.filter_append, List.length_append, ← List.countP_eq_length_filter]
  by_cases hco : conn.output = n.innovation
  · have hpc : (conn.output == n.innovation && conn.enabled) = true := by
      simp [hco, hce]
    simp [hpc] at hcount
    have hset : (g.connections.set p
        { input := conn.input, output := conn.output, innovation := conn.innovation,
          enabled := false }).countP (fun c => c.output == n.innovation && c.enabled) = 0 := by
      omega
    rw [hset]
    simp [hne1, hco]
  · have hpc : (conn.output == n.innovation && conn.enabled) = false := by
      simp [hco]
    simp [hpc] at hcount
    have hset : (g.connections.set p
        { input := conn.input, output := conn.output, innovation := conn.innovation,
          enabled := false }).countP (fun c => c.output == n.innovation && c.enabled) = 1 := by
      omega
    rw [hset]
    simp [hne1, hco]

theorem indeg_addNode_err {g : Genome} {p : Nat} {gk : Fin 4} {li : Nat} {e : AddNodeErr}
    {g' : Genome} (hi : GInv g) (hd : InDegOne g) (h : g.addNode p gk li = .err e g') :
    InDegOne g' := by
  cases e with
  | noEnabled =>
    obtain ⟨rfl, -⟩ := addNode_noEnabled_spec h
    exact hd
  | nodeLookup =>
    exfalso
    obtain ⟨conn, hp, hce, hbad⟩ := addNode_nodeLookup_spec h
    obtain ⟨a, haM, b, hbM, hai, hbi, hab⟩ := hi.ff conn (List.getElem?_mem hp)
    rcases hbad with hbad | hbad
    · rw [find?_innov hi.nodesNodup haM hai] at hbad
      exact Option.noConfusion hbad
    · rw [find?_innov hi.nodesNodup hbM hbi] at hbad
      exact Option.noConfusion hbad
  | noLower =>
    obtain ⟨conn, nin, nout, hp, hce, hfin, hfout, hN, hC, hK⟩ := addNode_noLower_spec h
    have hgate := gateOf_ne gk
    intro n hn hty
    have hnM : n ∈ g.nodes := by
      rw [hN] at hn
      rcases List.mem_append.mp hn with h1 | h1
      · exact h1
      · rw [List.mem_singleton.mp h1] at hty
        exact absurd hty hgate.2
    have hidlt : n.innovation < g.innovation_counter := hi.nodeIdLt hnM
    have hne1 : (g.innovation_counter == n.innovation) = false := by
      simp only [beq_eq_false_iff_ne, ne_eq]
      omega
    have hcg : g.connections.countP (fun c => c.output == n.innovation && c.enabled) = 1 := by
      rw [List.countP_eq_length_filter]
      exact hd n hnM hty
    have hcount := countP_set hp
      { input := conn.input, output := conn.output, innovation := conn.innovation,
        enabled := false } (fun c => c.output == n.innovation && c.enabled)
    unfold enabledInDegree
    rw [hC, List.filter_append, List.length_append, ← List.countP_eq_length_filter]
    by_cases hco : conn.output = n.innovation
    · have hpc : (conn.output == n.innovation && conn.enabled) = true := by
        simp [hco, hce]
      simp [hpc] at hcount
      have hset : (g.connections.set p
          { input := conn.input, output := conn.output, innovation := conn.innovation,
            enabled := false }).countP (fun c => c.output == n.innovation && c.enabled) = 0 := by
        omega
      rw [hset]
      simp [hne1, hco]
    · have hpc : (conn.output == n.innovation && conn.enabled) = false := by
        simp [hco]
      simp [hpc] at hcount
      have hset : (g.connections.set p
          { input := conn.input, output := conn.output, innovation := conn.innovation,
            enabled := false }).countP (fun c => c.output == n.innovation && c.enabled) = 1 := by
        omega
      rw [hset]
      simp [hne1, hco]

theorem indeg_step {g g' : Genome} (hi : GInv g) (hd : InDegOne g) (h : Step g g') :
    InDegOne g' := by
  cases h with
  | conn i j g' hc => exact indeg_addConnection hi hd hc
  | nodeOk p gk li g' hc => exact indeg_addNode_ok hi hd hc
  | nodeErr p gk li e g' hc => exact indeg_addNode_err hi hd hc

theorem indeg_reachableFrom {g g' : Genome} (hi : GInv g) (hd : InDegOne g)
    (h : ReachableFrom g g') : InDegOne g' := by
  induction h with
  | refl => exact hd
  | tail hR hstep ih => exact indeg_step (inv_reachableFrom hi hR) ih hstep

theorem reachableBalanced_reachable {g : Genome} (h : ReachableBalanced g) : Reachable g := by
  obtain ⟨g0, ⟨ic, oc, shin, shout, hbal, hin, hout, rfl⟩, hreach⟩ := h
  exact ⟨Genome.init ic oc shin shout, ⟨ic, oc, shin, shout, hin, hout, rfl⟩, hreach⟩

theorem indeg_init (ic oc : Int) {shin shout : List Node → List Node}
    (hbal : oc.toNat ≤ ic.toNat) (hin : IsShuffle shin) (hout : IsShuffle shout) :
    InDegOne (Genome.init ic oc shin shout) := by
  have h : Genome.init ic oc shin shout =
      { nodes := inputNodes ic.toNat ++ outputNodes ic.toNat oc.toNat,
        connections := matchConns (ic.toNat + oc.toNat)
          (shin (inputNodes ic.toNat)).reverse
          (shout (outputNodes ic.toNat oc.toNat)).reverse,
        innovation_counter := ic.toNat + oc.toNat + (matchConns (ic.toNat + oc.toNat)
          (shin (inputNodes ic.toNat)).reverse
          (shout (outputNodes ic.toNat oc.toNat)).reverse).length } := by
    simp only [Genome.init]
    rw [init_filter_inputs, init_filter_outputs]
  rw [h]
  exact indeg_init_core _ _ _ _ (hin _) (hout _) hbal

/-- Amended claim C3: for every genome constructed with
`output_count ≤ input_count` (so the initial random matching covers every
OUTPUT node), every OUTPUT node has enabled in-degree exactly 1 and out-degree
0 (counting all connections), and this holds at every point after
construction, through every `add_connection` and `add_node` call. For
`output_count > input_count` the surplus OUTPUT nodes start with in-degree 0
(see the counterexample). -/
theorem c3_output_degrees {g : Genome} (hg : ReachableBalanced g) :
    ∀ n ∈ g.nodes, n.node_type = NodeType.OUTPUT →
      enabledInDegree g n.innovation = 1 ∧ outDegreeAll g n.innovation = 0 := by
  have hi : GInv g := inv_reachable (reachableBalanced_reachable hg)
  obtain ⟨g0, ⟨ic, oc, shin, shout, hbal, hin, hout, rfl⟩, hreach⟩ := hg
  have hd : InDegOne g :=
    indeg_reachableFrom (inv_init ic oc hin hout) (indeg_init ic oc hbal hin hout) hreach
  intro n hn hty
  exact ⟨hd n hn hty, outDeg_zero_of_inv hi hn hty⟩

/-- Witness for C3's amended claim at `Genome(2, 1)`'s OUTPUT node (id 2). -/
theorem c3_output_degrees_witness :
    enabledInDegree (Genome.init 2 1 id id) (⟨2, NodeType.OUTPUT, 1⟩ : Node).innovation = 1 ∧
    outDegreeAll (Genome.init 2 1 id id) (⟨2, NodeType.OUTPUT, 1⟩ : Node).innovation = 0 :=
  c3_output_degrees
    ⟨Genome.init 2 1 id id, ⟨2, 1, id, id, by decide, isShuffle_id, isShuffle_id, rfl⟩,
      Relation.ReflTransGen.refl⟩
    ⟨2, NodeType.OUTPUT, 1⟩ (by decide) rfl
